import Mathlib

/-
  Verification development for the related-posts lemmatizer pipeline
  (src/main.rs of the repository under review).

  Modelling conventions.
  Strings processed character by character are modelled as `List Char`;
  permalinks, tokens and map keys are Lean `String`s.  A Rust `HashMap`
  is modelled as an association list (`List (key, value)`) when its
  contents are enumerated, or as a function when only get/insert are used.
  Every f32 the program produces is NaN or a nonnegative real (possibly
  +infinity), so the inductive `F32` with three constructors models them
  exactly; exact real arithmetic stands in for f32 rounding.  A Rust panic
  (an `unwrap`, an out-of-bounds slice, a comparator panic inside a sort)
  is modelled by an `Option` result of `none`.
-/

/-- Backtick character (code 96), kept as a named constant. -/
def tick : Char := Char.ofNat 96

/-- Model of the regex class `\w` (ASCII word character). -/
def isWordChar (c : Char) : Bool :=
  c.isAlphanum || c == '_'

/-- A term-frequency vector: model of `HashMap<String, u32>` as an
association list from lemma to count. -/
abbrev Counter := List (String × Nat)

/-- The key set of a counter (`counter.keys()`). -/
def keysOf (c : Counter) : List String :=
  c.map Prod.fst

/-- Sum of squared counts: `counter.values().map(|x| x * x).sum()`. -/
def sumSq (c : Counter) : Nat :=
  (c.map (fun p => p.2 * p.2)).sum

/-- The common keys of two counters: `k1.intersection(&k2)` where `k1`,
`k2` are the key sets (HashMap keys are pairwise distinct). -/
def commonKeys (c1 c2 : Counter) : List String :=
  (keysOf c1).filter (fun k => (keysOf c2).contains k)

/-- The dot product as the code computes it: over the common keys,
`counter1.get(&key).unwrap_or(&1) * counter2.get(&key).unwrap_or(&1)`.
The `unwrap_or(&1)` fallback is kept faithfully. -/
def cosineDot (c1 c2 : Counter) : Nat :=
  ((commonKeys c1 c2).map
    (fun k => ((List.lookup k c1).getD 1) * ((List.lookup k c2).getD 1))).sum

/-- The dot product in the words of the specification: over exactly the
lemmas present in both vectors, the product of the two actual counts;
a lemma missing from a side contributes zero (`getD 0`), never a
fallback value. -/
def dotSpec (c1 c2 : Counter) : Nat :=
  ((commonKeys c1 c2).map
    (fun k => ((List.lookup k c1).getD 0) * ((List.lookup k c2).getD 0))).sum

/-- Model of the f32 values arising in this program: every float it
produces is NaN, +infinity, or a nonnegative finite real. -/
inductive F32 where
  | nan : F32
  | inf : F32
  | val : ℝ → F32

/-- f32 division on the values of this program: NaN propagates,
`0.0 / 0.0` is NaN, `x / 0.0` with `x > 0` is +infinity, a finite value
divided by +infinity is `0`. -/
noncomputable def F32.div : F32 → F32 → F32
  | F32.nan, _ => F32.nan
  | _, F32.nan => F32.nan
  | F32.inf, F32.inf => F32.nan
  | F32.inf, F32.val _ => F32.inf
  | F32.val _, F32.inf => F32.val 0
  | F32.val x, F32.val y =>
      if y = 0 then (if x = 0 then F32.nan else F32.inf) else F32.val (x / y)

/-- Rust `f32::clamp(0.0, 1.0)`: NaN stays NaN (clamp does not replace a
NaN input), +infinity clamps to 1, a finite value is clamped into the
interval. -/
noncomputable def F32.clamp01 : F32 → F32
  | F32.nan => F32.nan
  | F32.inf => F32.val 1
  | F32.val x => F32.val (max 0 (min x 1))

/-- Rust `f32::partial_cmp`: `None` exactly when a NaN is involved. -/
noncomputable def F32.fcmp : F32 → F32 → Option Ordering
  | F32.nan, _ => none
  | _, F32.nan => none
  | F32.inf, F32.inf => some Ordering.eq
  | F32.inf, F32.val _ => some Ordering.gt
  | F32.val _, F32.inf => some Ordering.lt
  | F32.val x, F32.val y =>
      some (if x < y then Ordering.lt else if x = y then Ordering.eq else Ordering.gt)

/-- Model of `calculate_cosine_similarity`:
`(sum as f32 / (r1 as f32).sqrt() / (r2 as f32).sqrt()).clamp(0.0, 1.0)`. -/
noncomputable def calculate_cosine_similarity (counter1 counter2 : Counter) : F32 :=
  F32.clamp01
    (F32.div
      (F32.div (F32.val ((cosineDot counter1 counter2 : Nat) : ℝ))
        (F32.val (Real.sqrt ((sumSq counter1 : Nat) : ℝ))))
      (F32.val (Real.sqrt ((sumSq counter2 : Nat) : ℝ))))

/-- The cosine score written exactly as the specification words it:
`clamp(dot / mag1 / mag2, 0.0, 1.0)` with `dot` summing products over
exactly the lemmas present in both vectors (missing side contributes
zero). -/
noncomputable def specCosineSimilarity (c1 c2 : Counter) : F32 :=
  F32.clamp01
    (F32.div
      (F32.div (F32.val ((dotSpec c1 c2 : Nat) : ℝ))
        (F32.val (Real.sqrt ((sumSq c1 : Nat) : ℝ))))
      (F32.val (Real.sqrt ((sumSq c2 : Nat) : ℝ))))

/-- The property claimed of every similarity score: it is an ordinary
(non-NaN, non-infinite) value lying in the unit interval. -/
def unitRange (f : F32) : Prop :=
  ∃ x : ℝ, f = F32.val x ∧ 0 ≤ x ∧ x ≤ 1

/-- The similarity matrix: model of `HashMap<String, HashMap<String, f32>>`
as a two-argument function (get = apply, insert = pointwise update). -/
abbrev Res := String → String → Option F32

/-- Instrumentation: how many times `calculate_cosine_similarity` has been
invoked for each (unordered, stored symmetrically) pair of permalinks. -/
abbrev CallCnt := String → String → Nat

/-- Insertion into the similarity matrix (`HashMap::insert`). -/
def updateRes (m : Res) (a b : String) (v : F32) : Res :=
  fun x y => if x = a ∧ y = b then some v else m x y

/-- One iteration of the inner loop of `calculate_all_similarities` for the
outer article `(p1, c1)` and inner article `q`.  The `or_insert` argument
is evaluated eagerly in Rust, so the invocation counter is bumped on every
non-skipped iteration, even when the entry already exists; the kept value
is the existing entry when present (`or_insert`), and it is written to
both `[p1][p2]` and `[p2][p1]`. -/
noncomputable def simInner (p1 : String) (c1 : Counter)
    (st : Res × CallCnt) (q : String × Counter) : Res × CallCnt :=
  if p1 = q.1 then st
  else
    let v := (st.1 p1 q.1).getD (calculate_cosine_similarity c1 q.2)
    (updateRes (updateRes st.1 p1 q.1 v) q.1 p1 v,
     fun a b => st.2 a b +
       (if (a = p1 ∧ b = q.1) ∨ (a = q.1 ∧ b = p1) then 1 else 0))

/-- Model of `calculate_all_similarities`: the nested loop over all ordered
pairs of articles, returning the final matrix together with the
per-pair invocation count of the similarity function. -/
noncomputable def calculate_all_similarities
    (r : List (String × Counter)) : Res × CallCnt :=
  r.foldl (fun st p => r.foldl (simInner p.1 p.2) st)
    ((fun _ _ => none), (fun _ _ => 0))

/-- Insertion step of a sort whose comparator may panic (`None` models the
panic of `partial_cmp(..).unwrap()`). -/
def insertOpt (cmp : α → α → Option Ordering) (x : α) : List α → Option (List α)
  | [] => some [x]
  | y :: ys =>
    match cmp x y with
    | none => none
    | some Ordering.gt => (insertOpt cmp x ys).map (fun zs => y :: zs)
    | some _ => some (x :: y :: ys)

/-- Model of `Vec::sort_unstable_by` with a panicking comparator: an
insertion sort in the `Option` monad.  The unstable sort leaves the
relative order of comparator-equal elements unspecified; here it follows
the input (i.e. HashMap iteration) order, one legitimate resolution of
that freedom. -/
def sortOpt (cmp : α → α → Option Ordering) : List α → Option (List α)
  | [] => some []
  | x :: xs =>
    match sortOpt cmp xs with
    | none => none
    | some ys => insertOpt cmp x ys

/-- The comparator of `main`: `|(_, a), (_, b)| b.partial_cmp(a).unwrap()`,
i.e. descending by score, comparing scores only. -/
noncomputable def entryCmp (x y : String × F32) : Option Ordering :=
  F32.fcmp y.2 x.2

/-- `const TOP_ITEMS: usize = 3`. -/
def TOP_ITEMS : Nat := 3

/-- Per-article top-K selection of `main`: sort the neighbor entries with
`entryCmp`, then take the slice `entries[..TOP_ITEMS]` (which panics,
i.e. `none`, when fewer than `TOP_ITEMS` entries exist), keeping the
permalinks. -/
noncomputable def topFor (entries : List (String × F32)) : Option (List String) :=
  match sortOpt entryCmp entries with
  | none => none
  | some sorted =>
      if TOP_ITEMS ≤ sorted.length then
        some ((sorted.take TOP_ITEMS).map Prod.fst)
      else none

/-- Example vector {cat: 2, dog: 1} (article "cat cat dog"). -/
def exA : Counter := [("cat", 2), ("dog", 1)]

/-- Example vector {dog: 2, bird: 1} (article "dog dog bird"). -/
def exB : Counter := [("dog", 2), ("bird", 1)]

/-- Example vector {cat: 1}. -/
def exC : Counter := [("cat", 1)]

/-- The empty term-frequency vector (an article with no counted tokens). -/
def emptyCtr : Counter := []

/-- Scan to just past the first occurrence of three consecutive backticks
(the lazy search for the closing fence of the code-block regex, in
dot-matches-newline mode). -/
def dropToFence : List Char → Option (List Char)
  | [] => none
  | c :: cs =>
      if c = tick ∧ cs.take 2 = [tick, tick] then some (cs.drop 2)
      else dropToFence cs

/-- Attempt to match the fenced-code regex at the start of the input:
three backticks, then at least two word characters (the lazy `w` repeat of
the pattern takes its minimum of two), then lazily anything up to the next
three backticks.  Returns the remainder after the match. -/
def tryFence (s : List Char) : Option (List Char) :=
  if s.take 3 = [tick, tick, tick] then
    match s.drop 3 with
    | c1 :: c2 :: rest =>
        if isWordChar c1 && isWordChar c2 then dropToFence rest else none
    | _ => none
  else none

/-- Fuel-indexed driver of the fenced-code pass (`replace_all` with a
single space): at each position try the match, on success emit a space
and continue after the match, otherwise keep the character.  Each step
consumes at least one character, so fuel equal to the length of the
input (see `stripFenced`) always suffices; the fuel-exhausted branch is
never reached. -/
def stripFencedF : Nat → List Char → List Char
  | 0, s => s
  | _ + 1, [] => []
  | n + 1, c :: cs =>
    match tryFence (c :: cs) with
    | some rest => ' ' :: stripFencedF n rest
    | none => c :: stripFencedF n cs

/-- First cleaning pass: remove fenced code blocks. -/
def stripFenced (s : List Char) : List Char :=
  stripFencedF s.length s

/-- Scan to just past the first backtick (the lazy `[^`]*?` of the
inline-code span regex followed by the closing backtick). -/
def dropToTick : List Char → Option (List Char)
  | [] => none
  | c :: cs => if c = tick then some cs else dropToTick cs

/-- Fuel-indexed driver of the inline-code pass: a backtick followed by a
later backtick is a match (the class excludes only backticks, so the span
may cross newlines); the whole match becomes one space. -/
def stripInlineF : Nat → List Char → List Char
  | 0, s => s
  | _ + 1, [] => []
  | n + 1, c :: cs =>
    if c = tick then
      match dropToTick cs with
      | some rest => ' ' :: stripInlineF n rest
      | none => c :: stripInlineF n cs
    else c :: stripInlineF n cs

/-- Second cleaning pass: remove inline code spans. -/
def stripInline (s : List Char) : List Char :=
  stripInlineF s.length s

/-- Lazily capture the link text: everything (no newline) up to the first
occurrence of a closing bracket immediately followed by an opening
parenthesis.  Returns the captured text and the remainder after that
bracket-parenthesis pair. -/
def findCloseBracket : List Char → Option (List Char × List Char)
  | [] => none
  | c :: cs =>
      if c = ']' ∧ cs.take 1 = ['('] then some ([], cs.drop 1)
      else if c = '\n' then none
      else (findCloseBracket cs).map (fun p => (c :: p.1, p.2))

/-- Lazily scan (no newline) to just past the first closing parenthesis. -/
def findCloseParen : List Char → Option (List Char)
  | [] => none
  | c :: cs =>
      if c = ')' then some cs
      else if c = '\n' then none
      else findCloseParen cs

/-- Fuel-indexed driver of the markdown-link pass: a full match is
replaced by its captured link text (the `$1` replacement, which is not
rescanned); on failure the opening bracket is kept and scanning resumes
one character later. -/
def stripLinksF : Nat → List Char → List Char
  | 0, s => s
  | _ + 1, [] => []
  | n + 1, c :: cs =>
    if c = '[' then
      match findCloseBracket cs with
      | some (txt, rest1) =>
        match findCloseParen rest1 with
        | some rest2 => txt ++ stripLinksF n rest2
        | none => c :: stripLinksF n cs
      | none => c :: stripLinksF n cs
    else c :: stripLinksF n cs

/-- Third cleaning pass: replace markdown links by their link text. -/
def stripLinks (s : List Char) : List Char :=
  stripLinksF s.length s

/-- Scan to just past the first closing angle bracket (the `[^>]*?` of the
HTML-tag regex may cross newlines). -/
def dropToGt : List Char → Option (List Char)
  | [] => none
  | c :: cs => if c = '>' then some cs else dropToGt cs

/-- Fuel-indexed driver of the HTML-like-tag pass. -/
def stripHtmlF : Nat → List Char → List Char
  | 0, s => s
  | _ + 1, [] => []
  | n + 1, c :: cs =>
    if c = '<' then
      match dropToGt cs with
      | some rest => ' ' :: stripHtmlF n rest
      | none => c :: stripHtmlF n cs
    else c :: stripHtmlF n cs

/-- Fourth cleaning pass: remove HTML-like tags. -/
def stripHtml (s : List Char) : List Char :=
  stripHtmlF s.length s

/-- The punctuation/symbol character class of the final pass, in source
order. -/
def punctChars : List Char :=
  "-–—_,;:!?.".data ++ [Char.ofNat 39] ++ "”„()[]\x7b\x7d/#@$%^&*<>|".data
    ++ [tick] ++ "=>".data

/-- Fifth cleaning pass: each punctuation character becomes a space. -/
def stripPunct (s : List Char) : List Char :=
  s.map (fun c => if punctChars.contains c then ' ' else c)

/-- The five stripping passes of `clean_up`, applied in source order:
fenced code blocks, inline code, markdown links, HTML-like tags,
punctuation. -/
def cleanPasses (s : List Char) : List Char :=
  stripPunct (stripHtml (stripLinks (stripInline (stripFenced s))))

/-- Model of `str::split("---")`: the list of segments between
non-overlapping leftmost occurrences of three dashes. -/
def splitOnDashes : List Char → List (List Char)
  | '-' :: '-' :: '-' :: cs => [] :: splitOnDashes cs
  | c :: cs =>
    match splitOnDashes cs with
    | [] => [[c]]
    | seg :: rest => (c :: seg) :: rest
  | [] => [[]]

/-- Model of `clean_up`: split on the front-matter separator, take the
third segment (`get(2).unwrap()`; `none` models the panic when fewer
than three segments exist), then run the five stripping passes. -/
def clean_up (article : List Char) : Option (List Char) :=
  match (splitOnDashes article).get? 2 with
  | none => none
  | some body => some (cleanPasses body)

/-- The literal key searched by the permalink regex. -/
def permalinkKey : List Char := "permalink:".data

/-- Scan for the first occurrence of `permalink:` and return the
remainder after it. -/
def afterPermalink : List Char → Option (List Char)
  | [] => none
  | c :: cs =>
      if (c :: cs).take 10 = permalinkKey then some ((c :: cs).drop 10)
      else afterPermalink cs

/-- Model of `get_permalink` with the regex `permalink:\s*(.*)`: after the
key, greedy whitespace is skipped and the capture runs to the end of the
line.  `none` models the `unwrap()` panic when the pattern is absent. -/
def get_permalink (article : List Char) : Option (List Char) :=
  (afterPermalink article).map
    (fun r => ((r.dropWhile Char.isWhitespace).takeWhile (fun c => c ≠ '\n')))

/-- Whitespace splitting (`split_whitespace`), which yields no empty
tokens; the accumulator holds the current token reversed. -/
def splitWsAux : List Char → List Char → List (List Char)
  | [], acc => if acc.isEmpty then [] else [acc.reverse]
  | c :: cs, acc =>
    if c.isWhitespace then
      if acc.isEmpty then splitWsAux cs [] else acc.reverse :: splitWsAux cs []
    else splitWsAux cs (c :: acc)

/-- The whitespace-separated tokens of a character list. -/
def splitWs (s : List Char) : List (List Char) :=
  splitWsAux s []

/-- Whitespace trimming of a token (`str::trim`), on characters. -/
def charTrim (t : List Char) : List Char :=
  ((t.dropWhile Char.isWhitespace).reverse.dropWhile Char.isWhitespace).reverse

/-- The UTF-8 byte length of a token (Rust `str::len`). -/
def byteLen (t : List Char) : Nat :=
  (t.map Char.utf8Size).sum

/-- Dictionary lookup of `count_words`:
`dictionary.get(w).map_or_else(|| w.to_string(), |w| w.to_owned())` —
a token absent from the dictionary passes through unchanged (the printed
missing-entry diagnostic has no effect on the result and is not
modelled). -/
def lemmaFor (dict : List (String × String)) (w : String) : String :=
  match List.lookup w dict with
  | none => w
  | some l => l

/-- The filter_map of `count_words`: trim the token, keep it when its
byte length exceeds 1 (`w.len() > 1`), it does not start with a
backslash, and it is not a stopword; kept tokens are mapped through the
dictionary. -/
def lemmasOf (article : List Char) (dict : List (String × String))
    (stop : List String) : List String :=
  (splitWs article).filterMap (fun word =>
    let w := charTrim word
    if byteLen w > 1 && !(w.head? == some '\\')
        && !(stop.contains (String.mk w)) then
      some (lemmaFor dict (String.mk w))
    else none)

/-- The same token pipeline in the words of the specification: a token is
discarded exactly when its trimmed length is at most 1, it begins with
the escape marker, or it is a stopword; a surviving token absent from
the dictionary passes through unchanged, one present is replaced by its
lemma. -/
def lemmasSpec (article : List Char) (dict : List (String × String))
    (stop : List String) : List String :=
  (splitWs article).filterMap (fun word =>
    if byteLen (charTrim word) ≤ 1 ∨ (charTrim word).head? = some '\\'
        ∨ String.mk (charTrim word) ∈ stop then none
    else some ((List.lookup (String.mk (charTrim word)) dict).getD
      (String.mk (charTrim word))))

/-- One counting step: `*counter.entry(word).or_insert(0) += 1` on a
HashMap modelled as a function. -/
def bump (m : String → Nat) (w : String) : String → Nat :=
  fun x => if x = w then m x + 1 else m x

/-- Model of `count_words`: fold the counting step over the lemma list. -/
def count_words (article : List Char) (dict : List (String × String))
    (stop : List String) : String → Nat :=
  (lemmasOf article dict stop).foldl bump (fun _ => 0)

/-- Model of `analyze_path` on the contents of one file: lower-case the
text, extract the permalink (panic, i.e. `none`, when missing), clean the
body (panic when the front matter is malformed), and count words. -/
def analyze_article (content : List Char) (dict : List (String × String))
    (stop : List String) : Option (List Char × (String → Nat)) :=
  let lowered := content.map Char.toLower
  match get_permalink lowered with
  | none => none
  | some p =>
    match clean_up lowered with
    | none => none
    | some body => some (p, count_words body dict stop)

/-- The per-article map of `main`, whose `.unwrap()` turns any per-article
failure into a whole-run panic: the batch result is `none` as soon as one
article fails. -/
def process_articles (contents : List (List Char))
    (dict : List (String × String)) (stop : List String) :
    Option (List (List Char × (String → Nat))) :=
  contents.mapM (fun c => analyze_article c dict stop)

/-- A well-formed article: front matter with a permalink, body
`cat dog`. -/
def goodArticle : List Char := "---\npermalink: /a\n---\ncat dog\n".data

/-- An article whose front matter has no `permalink:` key. -/
def badArticle : List Char := "---\ntitle: nope\n---\nbird cat\n".data

/-- A markdown body holding one untagged fenced code block whose content
contains a lone backtick. -/
def c8Body : List Char := "\n```\nfoo ` xyz\n```\n".data

/-- A key occurring in a counter has a successful lookup. -/
theorem lookup_of_mem_keys (c : Counter) (k : String) (h : k ∈ keysOf c) :
    ∃ v, List.lookup k c = some v := by
  induction c with
  | nil => simp [keysOf] at h
  | cons p tl ih =>
    by_cases hk : k = p.1
    · exact ⟨p.2, by simp [List.lookup, hk]⟩
    · have : k ∈ keysOf tl := by
        simp [keysOf] at h ⊢
        rcases h with h | h
        · exact absurd h hk
        · exact h
      obtain ⟨v, hv⟩ := ih this
      exact ⟨v, by simp [List.lookup, beq_eq_false_iff_ne.mpr hk, hv]⟩

/-- The `unwrap_or(&1)` fallback of the dot product is dead code: over the
common keys both lookups succeed, so the code's dot product equals the
specification's (missing key contributes zero). -/
theorem cosineDot_eq_dotSpec (c1 c2 : Counter) :
    cosineDot c1 c2 = dotSpec c1 c2 := by
  unfold cosineDot dotSpec
  congr 1
  apply List.map_congr_left
  intro k hk
  have hk' := List.mem_filter.mp hk
  have h1 : k ∈ keysOf c1 := hk'.1
  have h2 : k ∈ keysOf c2 := by
    have := hk'.2
    simpa [List.contains, List.elem_iff] using this
  obtain ⟨v1, hv1⟩ := lookup_of_mem_keys c1 k h1
  obtain ⟨v2, hv2⟩ := lookup_of_mem_keys c2 k h2
  rw [hv1, hv2]
  rfl

/-- An article with an empty vector scores NaN against every other
article: the dot product and the first magnitude are both zero, so the
code divides 0.0 by 0.0, and `clamp` keeps the NaN. -/
theorem cosine_empty_left (c : Counter) :
    calculate_cosine_similarity emptyCtr c = F32.nan := by
  have hd : cosineDot emptyCtr c = 0 := by
    simp [cosineDot, commonKeys, keysOf, emptyCtr]
  have hs : sumSq emptyCtr = 0 := by simp [sumSq, emptyCtr]
  unfold calculate_cosine_similarity
  rw [hd, hs]
  simp only [Nat.cast_zero, Real.sqrt_zero]
  simp [F32.div, F32.clamp01]

/-- C1: for every pair of articles the similarity score equals
`clamp(dot / mag1 / mag2, 0.0, 1.0)` where `dot` sums the products of
the two counts over exactly the lemmas present in both vectors (the
`unwrap_or(&1)` fallback in the code is unreachable there, so a missing
lemma contributes zero, never a fallback value), and the example vectors
{cat: 2, dog: 1} and {dog: 2, bird: 1} score 0.4. -/
theorem C1_similarity_formula :
    (∀ c1 c2 : Counter,
        calculate_cosine_similarity c1 c2 = specCosineSimilarity c1 c2) ∧
    calculate_cosine_similarity exA exB = F32.val 0.4 := by
  constructor
  · intro c1 c2
    unfold calculate_cosine_similarity specCosineSimilarity
    rw [cosineDot_eq_dotSpec]
  · have hd : cosineDot exA exB = 2 := by decide
    have h1 : sumSq exA = 5 := by decide
    have h2 : sumSq exB = 5 := by decide
    unfold calculate_cosine_similarity
    rw [hd, h1, h2]
    have h5 : ((5 : Nat) : ℝ) = (5 : ℝ) := by norm_num
    have hs5 : Real.sqrt ((5 : Nat) : ℝ) ≠ 0 := by
      rw [h5]
      exact Real.sqrt_ne_zero'.mpr (by norm_num)
    simp only [F32.div, if_neg hs5]
    simp only [F32.clamp01]
    congr 1
    have hm : Real.sqrt ((5 : Nat) : ℝ) * Real.sqrt ((5 : Nat) : ℝ) = 5 := by
      rw [h5]
      exact Real.mul_self_sqrt (by norm_num)
    rw [div_div, hm]
    norm_num

/-- C2 (code_bug evidence): a corpus of two articles gives each article a
single neighbor entry, and the slice `entries[..TOP_ITEMS]` is out of
bounds — top-K selection panics (`none`) instead of returning the
min(K, N-1) = 1 neighbor the claim requires. -/
theorem C2_topk_out_of_bounds :
    topFor [("b", F32.val 1)] = none := rfl

/-- C3 (code_bug evidence): against the empty vector the code computes
`0.0 / 0.0`, which is NaN, and `clamp` propagates it — there is no
division-by-zero guard, and the result is not the claimed 0. -/
theorem C3_empty_vector_nan :
    calculate_cosine_similarity emptyCtr exB = F32.nan ∧
    F32.nan ≠ F32.val 0 := by
  refine ⟨cosine_empty_left exB, ?_⟩
  intro h
  exact F32.noConfusion h

/-- C6 counterexample: the claim that every computed similarity score is
a value in [0, 1] fails for a pair involving an empty vector, whose
score is NaN (not a value at all). -/
theorem C6_counterexample_range :
    ¬ unitRange (calculate_cosine_similarity emptyCtr exB) := by
  rw [cosine_empty_left exB]
  rintro ⟨x, hx, -, -⟩
  exact F32.noConfusion hx

/-- C6 amended: for every pair of articles whose term-frequency vectors
both have nonzero magnitude, the computed similarity score is a real
value s with 0 ≤ s ≤ 1 (when a magnitude is zero the score is NaN
instead, see the counterexample). -/
theorem C6_range_amended (c1 c2 : Counter)
    (h1 : sumSq c1 ≠ 0) (h2 : sumSq c2 ≠ 0) :
    unitRange (calculate_cosine_similarity c1 c2) := by
  have s1 : Real.sqrt ((sumSq c1 : Nat) : ℝ) ≠ 0 :=
    Real.sqrt_ne_zero'.mpr (by exact_mod_cast Nat.pos_of_ne_zero h1)
  have s2 : Real.sqrt ((sumSq c2 : Nat) : ℝ) ≠ 0 :=
    Real.sqrt_ne_zero'.mpr (by exact_mod_cast Nat.pos_of_ne_zero h2)
  unfold calculate_cosine_similarity
  simp only [F32.div, if_neg s1, if_neg s2, F32.clamp01]
  exact ⟨_, rfl, le_max_left _ _, max_le zero_le_one (min_le_right _ _)⟩

/-- C6 witness: the amended range theorem applied to the concrete
vectors {cat: 2, dog: 1} and {dog: 2, bird: 1}. -/
theorem C6_range_witness :
    unitRange (calculate_cosine_similarity exA exB) :=
  C6_range_amended exA exB (by decide) (by decide)

/-- C10: an article with an empty vector produces NaN similarity scores,
`partial_cmp` on NaN is `None` so its unwrap panics, and therefore top-K
selection over that article's neighbor entries fails instead of
returning a result. -/
theorem C10_nan_sort_panic :
    calculate_cosine_similarity emptyCtr exA = F32.nan ∧
    F32.fcmp F32.nan F32.nan = none ∧
    topFor [("a", calculate_cosine_similarity emptyCtr exA),
            ("b", calculate_cosine_similarity emptyCtr exB),
            ("c", calculate_cosine_similarity emptyCtr exC)] = none := by
  refine ⟨cosine_empty_left exA, rfl, ?_⟩
  rw [cosine_empty_left exA, cosine_empty_left exB, cosine_empty_left exC]
  simp [topFor, sortOpt, insertOpt, entryCmp, F32.fcmp]

/-- C4 (code_bug evidence): the comparator of `main` compares scores
only, so two neighbors tied at score 1/2 keep whatever order the backing
HashMap iterates them in — the two possible iteration orders of the same
entry set produce different neighbor orderings, instead of the claimed
deterministic ascending-permalink tie-break. -/
theorem C4_tie_order_nondeterministic :
    sortOpt entryCmp [("a", F32.val (1/2)), ("b", F32.val (1/2))]
      = some [("a", F32.val (1/2)), ("b", F32.val (1/2))] ∧
    sortOpt entryCmp [("b", F32.val (1/2)), ("a", F32.val (1/2))]
      = some [("b", F32.val (1/2)), ("a", F32.val (1/2))] ∧
    List.Perm [("a", F32.val (1/2)), ("b", F32.val (1/2))]
      [("b", F32.val (1/2)), ("a", F32.val (1/2))] ∧
    ([("a", F32.val (1/2)), ("b", F32.val (1/2))] : List (String × F32))
      ≠ [("b", F32.val (1/2)), ("a", F32.val (1/2))] := by
  have hc : F32.fcmp (F32.val ((1 : ℝ)/2)) (F32.val ((1 : ℝ)/2))
      = some Ordering.eq := by
    simp [F32.fcmp]
  refine ⟨?_, ?_, ?_, ?_⟩
  · simp only [sortOpt, insertOpt, entryCmp]
    rw [hc]
  · simp only [sortOpt, insertOpt, entryCmp]
    rw [hc]
  · exact List.Perm.swap _ _ _
  · intro h
    have := List.head_eq_of_cons_eq h
    simp at this

/-- Both insertions of one inner-loop step preserve symmetry of the
similarity matrix. -/
theorem symm_updatePair (m : Res) (p q : String) (v : F32)
    (h : ∀ a b, m a b = m b a) :
    ∀ a b, updateRes (updateRes m p q v) q p v a b
      = updateRes (updateRes m p q v) q p v b a := by
  intro a b
  simp only [updateRes]
  split_ifs <;> first | rfl | exact h a b | tauto

/-- One inner-loop iteration preserves symmetry of the matrix. -/
theorem symm_simInner (p1 : String) (c1 : Counter) (st : Res × CallCnt)
    (q : String × Counter) (h : ∀ a b, st.1 a b = st.1 b a) :
    ∀ a b, (simInner p1 c1 st q).1 a b = (simInner p1 c1 st q).1 b a := by
  intro a b
  simp only [simInner]
  split_ifs with hpq
  · exact h a b
  · exact symm_updatePair st.1 p1 q.1 _ h a b

/-- The inner loop preserves symmetry of the matrix. -/
theorem symm_innerFold (p1 : String) (c1 : Counter)
    (l : List (String × Counter)) :
    ∀ st : Res × CallCnt, (∀ a b, st.1 a b = st.1 b a) →
      ∀ a b, (l.foldl (simInner p1 c1) st).1 a b
        = (l.foldl (simInner p1 c1) st).1 b a := by
  induction l with
  | nil => intro st h a b; exact h a b
  | cons q tl ih =>
    intro st h a b
    simp only [List.foldl_cons]
    exact ih _ (symm_simInner p1 c1 st q h) a b

/-- The outer loop preserves symmetry of the matrix. -/
theorem symm_outerFold (r : List (String × Counter))
    (l : List (String × Counter)) :
    ∀ st : Res × CallCnt, (∀ a b, st.1 a b = st.1 b a) →
      ∀ a b, (l.foldl (fun st p => r.foldl (simInner p.1 p.2) st) st).1 a b
        = (l.foldl (fun st p => r.foldl (simInner p.1 p.2) st) st).1 b a := by
  induction l with
  | nil => intro st h a b; exact h a b
  | cons p tl ih =>
    intro st h a b
    simp only [List.foldl_cons]
    exact ih _ (symm_innerFold p.1 p.2 r st h) a b

/-- C5 counterexample: on a two-article corpus the similarity function is
invoked twice for the single unordered pair, not once as claimed — the
`or_insert` argument is evaluated eagerly on both ordered iterations. -/
theorem C5_counterexample_pair_computed_twice :
    (calculate_all_similarities [("a", exA), ("b", exB)]).2 "a" "b" ≠ 1 := by
  decide

/-- C5 amended: the similarity matrix is symmetric — score(A,B) equals
score(B,A), both entries receiving the same value — but each unordered
pair's score is computed once per ordered pair (twice in total, as the
two-article corpus shows); the value kept and written to both entries is
the one from the first ordered iteration. -/
theorem C5_symmetry_amended :
    (∀ (r : List (String × Counter)) (a b : String),
        (calculate_all_similarities r).1 a b
          = (calculate_all_similarities r).1 b a) ∧
    (calculate_all_similarities [("a", exA), ("b", exB)]).2 "a" "b" = 2 := by
  constructor
  · intro r a b
    unfold calculate_all_similarities
    exact symm_outerFold r r _ (fun _ _ => rfl) a b
  · decide

/-- The counting fold computes occurrence counts on top of the
accumulator. -/
theorem foldl_bump_count (l : List String) :
    ∀ (m : String → Nat) (w : String),
      (l.foldl bump m) w = m w + l.count w := by
  induction l with
  | nil => intro m w; simp
  | cons x tl ih =>
    intro m w
    simp only [List.foldl_cons]
    rw [ih]
    simp only [bump, List.count_cons]
    by_cases hw : w = x
    · subst hw
      simp
      omega
    · have hx : (x == w) = false := beq_eq_false_iff_ne.mpr (fun h => hw h.symm)
    
      simp [hw, hx]

/-- The code's token filter and the specification's discard conditions
agree on every token. -/
theorem keepStep_eq (dict : List (String × String)) (stop : List String)
    (word : List Char) :
    (if byteLen (charTrim word) > 1 && !((charTrim word).head? == some '\\')
        && !(stop.contains (String.mk (charTrim word))) then
       some (lemmaFor dict (String.mk (charTrim word))) else none)
    = (if byteLen (charTrim word) ≤ 1 ∨ (charTrim word).head? = some '\\'
          ∨ String.mk (charTrim word) ∈ stop then none
       else some ((List.lookup (String.mk (charTrim word)) dict).getD
         (String.mk (charTrim word)))) := by
  have hmem : stop.contains (String.mk (charTrim word)) = true
      ↔ String.mk (charTrim word) ∈ stop := by
    simp [List.contains, List.elem_iff]
  by_cases h1 : byteLen (charTrim word) ≤ 1
  · have hb : ¬ (byteLen (charTrim word) > 1) := by omega
    simp [hb, h1]
  · by_cases h2 : (charTrim word).head? = some '\\'
    · simp [h2, h1]
    · by_cases h3 : String.mk (charTrim word) ∈ stop
      · simp [hmem.mpr h3, h1, h2, h3]
      · have hgt : byteLen (charTrim word) > 1 := by omega
        have hns : stop.contains (String.mk (charTrim word)) = false := by
          rw [Bool.eq_false_iff]
          intro hx
          exact h3 (hmem.mp hx)
        have hn2 : ((charTrim word).head? == some '\\') = false :=
          beq_eq_false_iff_ne.mpr h2
        simp [hgt, hns, hn2, h1, h2, h3]
        cases h : List.lookup (String.mk (charTrim word)) dict <;>
          simp [lemmaFor, h]

/-- C9: the lemmatizer pipeline discards a whitespace token exactly when
its trimmed length is at most 1, it begins with the escape marker, or it
is a stopword; a surviving token absent from the dictionary passes
through unchanged and one present is replaced by its lemma (the code's
filter equals the specification's); and the produced counter maps each
lemma to its occurrence count. -/
theorem C9_lemmatizer_contract :
    ∀ (article : List Char) (dict : List (String × String))
      (stop : List String),
      lemmasOf article dict stop = lemmasSpec article dict stop ∧
      ∀ w, count_words article dict stop w
        = (lemmasOf article dict stop).count w := by
  intro article dict stop
  constructor
  · unfold lemmasOf lemmasSpec
    congr 1
    funext word
    exact keepStep_eq dict stop word
  · intro w
    unfold count_words
    rw [foldl_bump_count]
    simp

/-- C7 (code_bug evidence): an article without a `permalink:` key makes
`get_permalink` panic (`none`), a well-formed article on its own analyzes
successfully, yet the batch containing both fails as a whole — the
per-article `unwrap()` in `main` aborts the entire run instead of
producing a `MissingPermalink` error and skipping the one article. -/
theorem C7_missing_permalink_aborts :
    get_permalink (badArticle.map Char.toLower) = none ∧
    (analyze_article goodArticle [] []).isSome = true ∧
    process_articles [goodArticle, badArticle] [] [] = none := by
  refine ⟨rfl, rfl, rfl⟩

/-- C8 counterexample: in the untagged fenced block of `c8Body` (whose
content holds a lone backtick) the fenced-block regex does not match
(it requires a 2-7 word-character language tag), the inline-code pass
pairs the fence backticks with the content backtick, and the content
token `xyz` survives into the term-frequency vector — the block's
content does contribute to the vector. -/
theorem C8_counterexample_leak :
    count_words (cleanPasses c8Body) [] [] "xyz" ≠ 0 := by
  decide

/-- A fence match cannot start at a non-backtick character. -/
theorem tryFence_cons_ne (c : Char) (cs : List Char) (h : c ≠ tick) :
    tryFence (c :: cs) = none := by
  unfold tryFence
  rw [if_neg]
  intro hx
  rw [List.take_succ_cons] at hx
  exact h (List.head_eq_of_cons_eq hx)

/-- The fenced-code pass leaves backtick-free input unchanged, whatever
the fuel. -/
theorem stripFencedF_id (s : List Char) (h : tick ∉ s) :
    ∀ n, stripFencedF n s = s := by
  induction s with
  | nil => intro n; cases n <;> rfl
  | cons c cs ih =>
    intro n
    cases n with
    | zero => rfl
    | succ m =>
      have hcs : tick ∉ cs := fun hx => h (List.mem_cons_of_mem c hx)
      have hc : c ≠ tick := by
        intro hx
        exact h (by rw [hx]; exact List.mem_cons_self _ _)
      simp only [stripFencedF, tryFence_cons_ne c cs hc]
      rw [ih hcs m]

/-- The fenced-code pass passes over a backtick-free prefix unchanged. -/
theorem stripFencedF_append (x : List Char) (hx : tick ∉ x) :
    ∀ (n : Nat) (y : List Char),
      stripFencedF (x.length + n) (x ++ y) = x ++ stripFencedF n y := by
  induction x with
  | nil => intro n y; simp
  | cons c cs ih =>
    intro n y
    have hcs : tick ∉ cs := fun hm => hx (List.mem_cons_of_mem c hm)
    have hc : c ≠ tick := by
      intro hm
      exact hx (by rw [hm]; exact List.mem_cons_self _ _)
    have hlen : (c :: cs).length + n = (cs.length + n) + 1 := by
      simp [List.length_cons]
      omega
    rw [hlen]
    simp only [List.cons_append, stripFencedF, tryFence_cons_ne _ _ hc,
      List.append_eq]
    rw [ih hcs n y]

/-- The lazy search for the closing fence finds the first three
consecutive backticks after a backtick-free stretch. -/
theorem dropToFence_find (a b : List Char) (ha : tick ∉ a) :
    dropToFence (a ++ tick :: tick :: tick :: b) = some b := by
  induction a with
  | nil => simp [dropToFence, List.take, List.drop]
  | cons c cs ih =>
    have hcs : tick ∉ cs := fun hm => ha (List.mem_cons_of_mem c hm)
    have hc : c ≠ tick := by
      intro hm
      exact ha (by rw [hm]; exact List.mem_cons_self _ _)
    simp only [List.cons_append, dropToFence, List.append_eq]
    rw [if_neg, ih hcs]
    intro hx
    exact hc hx.1

/-- A fenced block whose opening fence is followed by two word characters
and whose inner text is backtick-free matches as one unit; the match is
replaced by a single space and the pass continues after it. -/
theorem stripFencedF_fence (c1 c2 : Char) (irest post : List Char) (n : Nat)
    (hc1 : isWordChar c1 = true) (hc2 : isWordChar c2 = true)
    (hin : tick ∉ irest) (hpost : tick ∉ post) :
    stripFencedF (n + 1)
      (tick :: tick :: tick :: c1 :: c2 ::
        (irest ++ tick :: tick :: tick :: post))
      = ' ' :: post := by
  have htf : tryFence (tick :: tick :: tick :: c1 :: c2 ::
      (irest ++ tick :: tick :: tick :: post)) = some post := by
    unfold tryFence
    rw [if_pos]
    · simp only [List.drop_succ_cons, List.drop_zero]
      rw [if_pos]
      · exact dropToFence_find irest post hin
      · rw [hc1, hc2]
        rfl
    · simp [List.take]
  simp only [stripFencedF, htf]
  rw [stripFencedF_id post hpost n]

/-- C8 amended: the five stripping passes run in the stated order, and a
fenced code block is stripped whole — its content contributing nothing
to the term-frequency vector — provided its opening fence carries a
language tag of at least two word characters (as the code's fenced-block
regex demands) and the fence delimiters are the only backticks involved.
Without a tag the block is only removed incidentally by the inline-code
pass, and content holding a backtick leaks (see the counterexample). -/
theorem C8_fenced_amended (pre irest post : List Char) (c1 c2 : Char)
    (hpre : tick ∉ pre) (hc1 : isWordChar c1 = true)
    (hc2 : isWordChar c2 = true) (hin : tick ∉ irest) (hpost : tick ∉ post) :
    cleanPasses (pre ++ [tick, tick, tick] ++ (c1 :: c2 :: irest)
        ++ [tick, tick, tick] ++ post)
      = cleanPasses (pre ++ ' ' :: post) ∧
    (∀ (dict : List (String × String)) (stop : List String) (w : String),
      count_words (cleanPasses (pre ++ [tick, tick, tick] ++ (c1 :: c2 :: irest)
          ++ [tick, tick, tick] ++ post)) dict stop w
        = count_words (cleanPasses (pre ++ ' ' :: post)) dict stop w) ∧
    (∀ s, cleanPasses s
        = stripPunct (stripHtml (stripLinks (stripInline (stripFenced s))))) := by
  have hassoc : pre ++ [tick, tick, tick] ++ (c1 :: c2 :: irest)
      ++ [tick, tick, tick] ++ post
      = pre ++ (tick :: tick :: tick :: c1 :: c2 ::
          (irest ++ tick :: tick :: tick :: post)) := by
    simp [List.append_assoc]
  have key : stripFenced (pre ++ [tick, tick, tick] ++ (c1 :: c2 :: irest)
      ++ [tick, tick, tick] ++ post) = pre ++ ' ' :: post := by
    rw [hassoc]
    unfold stripFenced
    have hlen : (pre ++ (tick :: tick :: tick :: c1 :: c2 ::
        (irest ++ tick :: tick :: tick :: post))).length
        = pre.length + ((irest.length + post.length + 7) + 1) := by
      simp [List.length_append, List.length_cons]
      omega
    rw [hlen, stripFencedF_append pre hpre]
    rw [stripFencedF_fence c1 c2 irest post _ hc1 hc2 hin hpost]
  have keyB : stripFenced (pre ++ ' ' :: post) = pre ++ ' ' :: post := by
    unfold stripFenced
    apply stripFencedF_id
    intro hmem
    rcases List.mem_append.mp hmem with h | h
    · exact hpre h
    · rcases List.mem_cons.mp h with h | h
      · exact absurd h (by decide)
      · exact hpost h
  have hmain : cleanPasses (pre ++ [tick, tick, tick] ++ (c1 :: c2 :: irest)
      ++ [tick, tick, tick] ++ post) = cleanPasses (pre ++ ' ' :: post) := by
    unfold cleanPasses
    rw [key, keyB]
  exact ⟨hmain, fun dict stop w => by rw [hmain], fun s => rfl⟩

/-- C8 witness: the amended theorem applied to a concrete body with a
Python-tagged fenced block. -/
theorem C8_fenced_witness :
    cleanPasses ("see ".data ++ [tick, tick, tick]
        ++ ('p' :: 'y' :: "thon\nx = 1\n".data)
        ++ [tick, tick, tick] ++ " end".data)
      = cleanPasses ("see ".data ++ ' ' :: " end".data) :=
  (C8_fenced_amended "see ".data "thon\nx = 1\n".data " end".data 'p' 'y'
    (by decide) (by decide) (by decide) (by decide) (by decide)).1
